import Mathlib

/-!
Verification development for the QuoteVault scraper (`quote_scraper`).

The Python sources are shallowly embedded: strings are lists of
characters, parsed HTML nodes are records of the fields the code
queries, and HTTP traffic is an oracle mapping a URL and a per-URL
request ordinal to a response.  All definitions are translated from
`src/quote_scraper/utils.py` and `src/quote_scraper/scraper.py`; the
one helper the sources import but do not define (`safe_get`) and the
standard-library collaborators (`urlparse`, `urljoin`, `strptime`) are
modelled as documented at their definitions.
-/

namespace QuoteVault

/-- Strings are modelled as lists of characters. -/
abbrev Str := List Char

/-- Character list of a Lean string literal. -/
def chars (s : String) : Str := s.data

/-- ASCII whitespace, the model of Python's default `str.strip` set and
of the regex class `\s` as used by `utils.extract_text`. -/
def isWs (c : Char) : Bool :=
  c = ' ' || c = '\t' || c = '\n' || c = '\r' || c = Char.ofNat 11 || c = Char.ofNat 12

/-- The punctuation set `{. , ; ! ?}` of the cleanup regex in
`utils.extract_text`. -/
def isPunct (c : Char) : Bool :=
  c = '.' || c = ',' || c = ';' || c = '!' || c = '?'

/-- Python `str.lstrip()` (whitespace). -/
def trimL (s : Str) : Str := s.dropWhile isWs

/-- Python `str.strip()` (whitespace): drop leading and trailing runs. -/
def pyStrip (s : Str) : Str := (trimL (trimL s).reverse).reverse

/-- The fragment list produced by BeautifulSoup's `tag.stripped_strings`:
every directly contained text fragment, stripped, with the ones that
strip to nothing skipped. -/
def strippedStrings (texts : List Str) : List Str :=
  (texts.map pyStrip).filter (fun t => t ≠ [])

/-- Python `' '.join(fragments)`. -/
def joinSp (l : List Str) : Str := (l.intersperse [' ']).flatten

/-- Model of `re.sub(r'\s([.,;!?])', r'\1', text)`: scan left to right and drop
each single whitespace character that immediately precedes one of the
punctuation marks, continuing after the consumed pair. -/
def cleanSpaces : Str → Str
  | [] => []
  | [c] => [c]
  | c1 :: c2 :: rest =>
    if isWs c1 && isPunct c2 then c2 :: cleanSpaces rest
    else c1 :: cleanSpaces (c2 :: rest)

/-- A parsed HTML element, carrying exactly what the code queries: its
directly contained raw text fragments, its attributes, and the number
of children (BeautifulSoup `Tag.__len__`, which drives `if tag:`
truthiness). -/
structure Elem where
  texts : List Str := []
  attrs : List (Str × Str) := []
  childCount : Nat := 0
deriving DecidableEq, Repr

/-- Python `utils.extract_text`: on a truthy tag, join the stripped fragments
with single spaces and apply the punctuation-space cleanup; otherwise
return the default.  (`if tag:` is false both for `None` and for a tag
with no contents.) -/
def extract_text (tag : Option Elem) (dflt : Str := []) : Str :=
  match tag with
  | some t =>
    if t.childCount ≠ 0 then cleanSpaces (joinSp (strippedStrings t.texts))
    else dflt
  | none => dflt

/-- Python `Tag.text`: the raw concatenation of contained fragments. -/
def tagText (e : Elem) : Str := e.texts.flatten

/-- The trivial node of the idempotence property: a tag whose only
content is one text fragment. -/
def wrapNode (s : Str) : Elem := { texts := [s], childCount := 1 }

/-- True iff no whitespace character immediately precedes a
punctuation mark anywhere in the string. -/
def noWsPunct : Str → Bool
  | c1 :: c2 :: rest => !(isWs c1 && isPunct c2) && noWsPunct (c2 :: rest)
  | _ => true

/-- True iff nowhere do two consecutive whitespace characters
immediately precede a punctuation mark. -/
def noWsWsPunct : Str → Bool
  | c1 :: c2 :: c3 :: rest =>
    !(isWs c1 && isWs c2 && isPunct c3) && noWsWsPunct (c2 :: c3 :: rest)
  | _ => true

/-- The space-joined stripped text of an optional node, the input that
`extract_text` feeds to the cleanup regex. -/
def joinedText (x : Option Elem) : Str :=
  match x with
  | some e => joinSp (strippedStrings e.texts)
  | none => []

example : cleanSpaces (chars "a  .") = chars "a ." := by decide
example : cleanSpaces (chars "a .") = chars "a." := by decide
example : extract_text (some (wrapNode (chars "a  ."))) [] = chars "a ." := by decide

/-- True iff the string does not start with a whitespace character. -/
def headOk (l : Str) : Bool :=
  match l.head? with
  | some c => !isWs c
  | none => true

/-- True iff the string does not end with a whitespace character. -/
def lastOk (l : Str) : Bool :=
  match l.getLast? with
  | some c => !isWs c
  | none => true

theorem cleanSpaces_ne_nil : ∀ l : Str, l ≠ [] → cleanSpaces l ≠ []
  | [], h => absurd rfl h
  | [_], _ => by simp [cleanSpaces]
  | _ :: _ :: _, _ => by
    rw [cleanSpaces]
    split <;> simp

theorem cleanSpaces_of_noWsPunct : ∀ l : Str, noWsPunct l = true → cleanSpaces l = l
  | [], _ => rfl
  | [_], _ => rfl
  | c1 :: c2 :: rest, h => by
    rw [noWsPunct] at h
    simp only [Bool.and_eq_true, Bool.not_eq_true'] at h
    rw [cleanSpaces, if_neg (by simp [h.1]),
      cleanSpaces_of_noWsPunct (c2 :: rest) h.2]

theorem noWsWsPunct_tail : ∀ (c : Char) (t : Str),
    noWsWsPunct (c :: t) = true → noWsWsPunct t = true
  | _, [], _ => rfl
  | _, [_], _ => rfl
  | _, _ :: _ :: _, h => by
    rw [noWsWsPunct] at h
    simp only [Bool.and_eq_true] at h
    exact h.2

theorem isPunct_not_isWs (c : Char) (h : isPunct c = true) : isWs c = false := by
  simp only [isPunct, Bool.or_eq_true, decide_eq_true_eq] at h
  rcases h with ((((h | h) | h) | h) | h) <;> subst h <;> decide

theorem noWsPunct_cleanSpaces : ∀ l : Str,
    noWsWsPunct l = true → noWsPunct (cleanSpaces l) = true
  | [], _ => rfl
  | [_], _ => rfl
  | c1 :: c2 :: rest, h => by
    rw [cleanSpaces]
    by_cases hc : (isWs c1 && isPunct c2) = true
    · rw [if_pos hc]
      have hws2 : isWs c2 = false := by
        rw [Bool.and_eq_true] at hc
        exact isPunct_not_isWs c2 hc.2
      have ihrec : noWsPunct (cleanSpaces rest) = true :=
        noWsPunct_cleanSpaces rest (noWsWsPunct_tail _ _ (noWsWsPunct_tail _ _ h))
      cases hX : cleanSpaces rest with
      | nil => rfl
      | cons y ys =>
        rw [hX] at ihrec
        rw [noWsPunct, ihrec, Bool.and_true, hws2]
        rfl
    · rw [if_neg hc]
      have ihrec : noWsPunct (cleanSpaces (c2 :: rest)) = true :=
        noWsPunct_cleanSpaces (c2 :: rest) (noWsWsPunct_tail _ _ h)
      cases hX : cleanSpaces (c2 :: rest) with
      | nil => rfl
      | cons y ys =>
        rw [hX] at ihrec
        rw [noWsPunct, ihrec, Bool.and_true]
        by_cases hws1 : isWs c1 = true
        · have hp2 : isPunct c2 = false := by
            cases hI : isPunct c2
            · rfl
            · exact absurd (by simp [hws1, hI]) hc
          have hy : y = c2 := by
            cases rest with
            | nil =>
              have hcj : y = c2 ∧ ys = [] := by simpa [cleanSpaces] using hX.symm
              exact hcj.1
            | cons c3 rest2 =>
              by_cases hc2 : (isWs c2 && isPunct c3) = true
              · exfalso
                rw [noWsWsPunct] at h
                simp only [Bool.and_eq_true, Bool.not_eq_true'] at h
                have h1 := h.1
                rw [Bool.and_eq_true] at hc2
                rw [hws1, hc2.1, hc2.2] at h1
                simp at h1
              · rw [cleanSpaces, if_neg hc2] at hX
                exact (List.cons.injEq _ _ _ _ ▸ hX).1.symm
          rw [hy, hp2]
          simp
        · have hws1f : isWs c1 = false := by simpa using hws1
          rw [hws1f]
          rfl

theorem cleanSpaces_getLast? : ∀ l : Str, (cleanSpaces l).getLast? = l.getLast?
  | [] => rfl
  | [_] => rfl
  | c1 :: c2 :: rest => by
    rw [cleanSpaces]
    by_cases hc : (isWs c1 && isPunct c2) = true
    · rw [if_pos hc]
      cases rest with
      | nil => simp [cleanSpaces]
      | cons c3 rest2 =>
        cases hX : cleanSpaces (c3 :: rest2) with
        | nil => exact absurd hX (cleanSpaces_ne_nil _ (by simp))
        | cons y ys =>
          rw [List.getLast?_cons_cons, ← hX, cleanSpaces_getLast? (c3 :: rest2),
            List.getLast?_cons_cons, List.getLast?_cons_cons]
    · rw [if_neg hc]
      cases hX : cleanSpaces (c2 :: rest) with
      | nil => exact absurd hX (cleanSpaces_ne_nil _ (by simp))
      | cons y ys =>
        rw [List.getLast?_cons_cons, ← hX, cleanSpaces_getLast? (c2 :: rest),
          List.getLast?_cons_cons]

theorem headOk_cleanSpaces (l : Str) (h : headOk l = true) : headOk (cleanSpaces l) = true := by
  match l with
  | [] => rfl
  | [c] => exact h
  | c1 :: c2 :: rest =>
    rw [headOk] at h
    simp only [List.head?_cons, Bool.not_eq_true'] at h
    rw [cleanSpaces, if_neg (by simp [h])]
    rw [headOk]
    simp [h]

theorem lastOk_cleanSpaces (l : Str) (h : lastOk l = true) : lastOk (cleanSpaces l) = true := by
  rw [lastOk, cleanSpaces_getLast?]
  exact h

theorem trimL_eq_self (l : Str) (h : headOk l = true) : trimL l = l := by
  match l with
  | [] => rfl
  | c :: t =>
    rw [headOk] at h
    simp only [List.head?_cons, Bool.not_eq_true'] at h
    simp [trimL, List.dropWhile_cons, h]

theorem headOk_trimL (l : Str) : headOk (trimL l) = true := by
  induction l with
  | nil => rfl
  | cons c t ih =>
    rw [trimL, List.dropWhile_cons]
    by_cases hws : isWs c = true
    · rw [if_pos hws]
      exact ih
    · rw [if_neg hws]
      rw [headOk]
      have hwsf : isWs c = false := by simpa using hws
      simp [hwsf]

theorem lastOk_trimL (l : Str) (h : lastOk l = true) : lastOk (trimL l) = true := by
  induction l with
  | nil => rfl
  | cons c t ih =>
    rw [trimL, List.dropWhile_cons]
    by_cases hws : isWs c = true
    · rw [if_pos hws]
      apply ih
      cases t with
      | nil => rfl
      | cons d t2 =>
        rw [lastOk, ← List.getLast?_cons_cons (l := t2)]
        exact h
    · rw [if_neg hws]
      exact h

theorem headOk_reverse (l : Str) : headOk l.reverse = lastOk l := by
  rw [headOk, lastOk, List.head?_reverse]

theorem lastOk_reverse (l : Str) : lastOk l.reverse = headOk l := by
  rw [headOk, lastOk, List.getLast?_reverse]

theorem pyStrip_eq_self (l : Str) (hh : headOk l = true) (hl : lastOk l = true) :
    pyStrip l = l := by
  rw [pyStrip, trimL_eq_self l hh, trimL_eq_self l.reverse (by rw [headOk_reverse]; exact hl),
    List.reverse_reverse]

theorem headOk_pyStrip (l : Str) : headOk (pyStrip l) = true := by
  rw [pyStrip, headOk_reverse]
  apply lastOk_trimL
  rw [lastOk_reverse]
  exact headOk_trimL l

theorem lastOk_pyStrip (l : Str) : lastOk (pyStrip l) = true := by
  rw [pyStrip, lastOk_reverse]
  exact headOk_trimL _

theorem joinSp_cons_cons (f g : Str) (rest : List Str) :
    joinSp (f :: g :: rest) = f ++ ' ' :: joinSp (g :: rest) := by
  simp [joinSp, List.intersperse]

theorem joinSp_ne_nil (g : Str) (rest : List Str) (hg : g ≠ []) :
    joinSp (g :: rest) ≠ [] := by
  cases rest with
  | nil => simpa [joinSp, List.intersperse] using hg
  | cons f rest2 =>
    rw [joinSp_cons_cons]
    simp [hg]

theorem joinSp_ends : ∀ l : List Str,
    (∀ t ∈ l, t ≠ [] ∧ headOk t = true ∧ lastOk t = true) →
    headOk (joinSp l) = true ∧ lastOk (joinSp l) = true
  | [], _ => ⟨rfl, rfl⟩
  | [f], h => by
    have hf := h f (by simp)
    simpa [joinSp, List.intersperse] using ⟨hf.2.1, hf.2.2⟩
  | f :: g :: rest, h => by
    have hf := h f (by simp)
    have ih := joinSp_ends (g :: rest) (fun t ht => h t (by simp [ht]))
    have hgr : joinSp (g :: rest) ≠ [] := joinSp_ne_nil g rest (h g (by simp)).1
    rw [joinSp_cons_cons]
    constructor
    · rw [headOk]
      cases hF : f with
      | nil => exact absurd hF hf.1
      | cons a fs =>
        have := hf.2.1
        rw [hF, headOk] at this
        simpa using this
    · cases hJ : joinSp (g :: rest) with
      | nil => exact absurd hJ hgr
      | cons b js =>
        have hlast := ih.2
        rw [hJ, lastOk] at hlast
        rw [lastOk, List.getLast?_append, List.getLast?_cons_cons]
        cases hbl : (b :: js).getLast? with
        | none => simp at hbl
        | some c =>
          rw [hbl] at hlast
          exact hlast

theorem strippedStrings_ends (texts : List Str) :
    ∀ t ∈ strippedStrings texts, t ≠ [] ∧ headOk t = true ∧ lastOk t = true := by
  intro t ht
  rw [strippedStrings] at ht
  have hmem := List.mem_filter.mp ht
  have hne : t ≠ [] := by simpa using hmem.2
  obtain ⟨u, _, hu⟩ := List.mem_map.mp hmem.1
  exact ⟨hne, hu ▸ headOk_pyStrip u, hu ▸ lastOk_pyStrip u⟩

theorem extract_text_output_strip (texts : List Str) :
    pyStrip (cleanSpaces (joinSp (strippedStrings texts)))
      = cleanSpaces (joinSp (strippedStrings texts)) := by
  have hj := joinSp_ends (strippedStrings texts) (strippedStrings_ends texts)
  exact pyStrip_eq_self _ (headOk_cleanSpaces _ hj.1) (lastOk_cleanSpaces _ hj.2)

/-- C4 counterexample: `extract_text` is not idempotent.  On a node whose
single text fragment is `"a  ."` (two spaces before the period) the first
pass yields `"a ."` — the regex consumes only one of the two spaces — and
re-wrapping that output and extracting again yields `"a."`. -/
theorem extract_text_not_idem :
    extract_text
        (some (wrapNode (extract_text (some { texts := [chars "a  ."], childCount := 1 }) []))) []
      ≠ extract_text (some { texts := [chars "a  ."], childCount := 1 }) [] := by
  decide

/-- C4 (amended): `extract_text` is idempotent on every node in whose
space-joined stripped text no two consecutive whitespace characters
immediately precede a punctuation mark from `{. , ; ! ?}`; re-wrapping the
produced string as a trivial node and extracting again yields the same
string. -/
theorem extract_text_idem (x : Option Elem)
    (h : noWsWsPunct (joinedText x) = true) :
    extract_text (some (wrapNode (extract_text x []))) [] = extract_text x [] := by
  cases x with
  | none => rfl
  | some e =>
    by_cases hcc : e.childCount = 0
    · have heq : extract_text (some e) [] = [] := by
        rw [extract_text]
        simp [hcc]
      rw [heq]
      rfl
    · have heq : extract_text (some e) [] = cleanSpaces (joinSp (strippedStrings e.texts)) := by
        rw [extract_text]
        simp [hcc]
      rw [heq]
      by_cases hs : cleanSpaces (joinSp (strippedStrings e.texts)) = []
      · rw [hs]
        rfl
      · have hstrip := extract_text_output_strip e.texts
        have hnp : noWsPunct (cleanSpaces (joinSp (strippedStrings e.texts))) = true :=
          noWsPunct_cleanSpaces _ (by simpa [joinedText] using h)
        rw [extract_text]
        simp only [wrapNode, ne_eq, reduceCtorEq, not_false_iff, if_true]
        rw [strippedStrings]
        simp only [List.map_cons, List.map_nil]
        rw [hstrip]
        rw [List.filter_cons_of_pos (by simpa using hs), List.filter_nil]
        have hjoin : joinSp [cleanSpaces (joinSp (strippedStrings e.texts))]
            = cleanSpaces (joinSp (strippedStrings e.texts)) := by
          simp [joinSp, List.intersperse]
        rw [hjoin]
        exact cleanSpaces_of_noWsPunct _ hnp

/-- Closed witness for the amended C4 theorem at a concrete node. -/
theorem extract_text_idem_witness :
    noWsWsPunct (joinedText (some { texts := [chars "  hello ,  world"], childCount := 1 })) = true ∧
    extract_text
        (some (wrapNode (extract_text (some { texts := [chars "  hello ,  world"], childCount := 1 }) []))) []
      = extract_text (some { texts := [chars "  hello ,  world"], childCount := 1 }) [] :=
  ⟨by decide, extract_text_idem _ (by decide)⟩

/-- ASCII lower-casing, as applied by `urlparse` to the scheme. -/
def asciiLower (c : Char) : Char :=
  if 'A' ≤ c ∧ c ≤ 'Z' then Char.ofNat (c.toNat + 32) else c

/-- Characters allowed in a URL scheme after the leading letter. -/
def schemeChar (c : Char) : Bool :=
  c.isAlpha || ('0' ≤ c && c ≤ '9') || c = '+' || c = '-' || c = '.'

/-- Helper for `splitScheme`: `acc` is the reversed prefix read so far,
before the first `:`. -/
def splitSchemeAux : Str → Str → Option (Str × Str)
  | _, [] => none
  | acc, c :: rest =>
    if c = ':' then
      match acc.reverse with
      | [] => none
      | a :: tl =>
        if a.isAlpha && tl.all schemeChar then some ((a :: tl).map asciiLower, rest)
        else none
    else splitSchemeAux (c :: acc) rest

/-- Model of `urllib.parse.urlparse`'s scheme detection: the text before
the first `:` is a scheme iff it is non-empty, starts with a letter and
contains only scheme characters; the scheme is lower-cased. -/
def splitScheme (u : Str) : Option (Str × Str) := splitSchemeAux [] u

/-- The network-location component of the part following the scheme:
present iff it starts with `//`, extending to the next `/`, `?` or `#`. -/
def netlocOf (afterScheme : Str) : Str :=
  match afterScheme with
  | '/' :: '/' :: rest => rest.takeWhile (fun c => c ≠ '/' && c ≠ '?' && c ≠ '#')
  | _ => []

/-- Model of `urllib.parse.urlparse`, restricted to the two components
the repository reads: `(scheme, netloc)`. -/
def pyUrlparse (u : Str) : Str × Str :=
  match splitScheme u with
  | some (sch, rest) => (sch, netlocOf rest)
  | none => ([], netlocOf u)

/-- Python `utils.is_valid_url`: false for `None` and for the empty string;
otherwise true iff the parse yields both a scheme and a netloc. -/
def is_valid_url (url : Option Str) : Bool :=
  match url with
  | none => false
  | some u =>
    if u = [] then false
    else
      let p := pyUrlparse u
      p.1 ≠ [] && p.2 ≠ []

/-- The part of a URL after its scheme (the whole string if it has none). -/
def afterScheme (u : Str) : Str :=
  match splitScheme u with
  | some (_, rest) => rest
  | none => u

/-- The path component of a URL (model scope: no query/fragment use). -/
def pathOf (u : Str) : Str :=
  match afterScheme u with
  | '/' :: '/' :: rest =>
    (rest.dropWhile (fun c => c ≠ '/' && c ≠ '?' && c ≠ '#')).takeWhile
      (fun c => c ≠ '?' && c ≠ '#')
  | other => other.takeWhile (fun c => c ≠ '?' && c ≠ '#')

/-- The `scheme://netloc` part of a URL that has both. -/
def schemeNetloc (u : Str) : Str :=
  (pyUrlparse u).1 ++ chars "://" ++ (pyUrlparse u).2

/-- Model of CPython `urlsplit`'s removal of the unsafe bytes tab, CR
and LF anywhere in a URL. -/
def cleanseUrl (u : Str) : Str :=
  u.filter (fun c => decide (c ≠ '\t' ∧ c ≠ '\n' ∧ c ≠ '\r'))

/-- Python `path.split('/')`. -/
def splitSlash : Str → List Str
  | [] => [[]]
  | c :: rest =>
    match splitSlash rest with
    | [] => [[]]
    | seg :: segs => if c = '/' then [] :: seg :: segs else (c :: seg) :: segs

/-- Python `'/'.join(parts)`. -/
def joinSlash : List Str → Str
  | [] => []
  | [s] => s
  | s :: rest => s ++ '/' :: joinSlash rest

/-- The dot-segment resolution loop of CPython `urljoin` (RFC 3986
`remove_dot_segments`): `..` pops the last resolved segment if any,
`.` is dropped, every other segment is appended. -/
def resolveSegs (acc : List Str) : List Str → List Str
  | [] => acc
  | seg :: rest =>
    if seg = chars ".." then resolveSegs acc.dropLast rest
    else if seg = chars "." then resolveSegs acc rest
    else resolveSegs (acc ++ [seg]) rest

/-- The resolved segment list, with an empty segment re-appended when
the original path ends in a dot segment (CPython's trailing-`.`/`..`
special case). -/
def resolveSegsFinal (segments : List Str) : List Str :=
  match segments.getLast? with
  | some s =>
    if s = chars "." ∨ s = chars ".." then resolveSegs [] segments ++ [[]]
    else resolveSegs [] segments
  | none => resolveSegs [] segments

/-- Finish `urljoin`'s path handling: resolve the segments, join with
`/`, and fall back to `/` when the join is empty
(`'/'.join(resolved_path) or '/'`). -/
def resolvePath (segments : List Str) : Str :=
  if joinSlash (resolveSegsFinal segments) = [] then chars "/"
  else joinSlash (resolveSegsFinal segments)

/-- The segment merge for a relative (non-slash-leading) reference: the
base path's segments without a non-empty last one, then the reference's
segments, with empty interior segments dropped (CPython's
`segments[1:-1] = filter(None, segments[1:-1])`). -/
def mergeSegments (bpath ref : Str) : List Str :=
  let baseParts := splitSlash bpath
  let baseParts2 :=
    match baseParts.getLast? with
    | some s => if s ≠ [] then baseParts.dropLast else baseParts
    | none => baseParts
  match baseParts2 ++ splitSlash ref with
  | [] => []
  | s :: rest =>
    match rest.getLast? with
    | none => [s]
    | some lastSeg => s :: ((rest.dropLast.filter (fun t => t ≠ [])) ++ [lastSeg])

/-- Modelled from the spec: standard relative-URL resolution ("resolves
it against `baseUrl` using standard relative-URL resolution", i.e.
`urllib.parse.urljoin` / RFC 3986 §5.2) for hierarchical `http(s)`-style
URLs.  Unsafe bytes (tab, CR, LF) are removed from both inputs as
`urlsplit` does; a scheme-qualified reference is returned unchanged; a
protocol-relative one adopts the base's scheme; both the root-relative
branch and the merge branch run CPython's dot-segment resolution.
Query/fragment splitting and the Python-3.10+ stripping of *leading*
control/space characters are outside the model's scope (no compared
input has a leading control character, and a root-relative href starts
with `/`).  A reference starting with `/` can never carry a scheme, so
the root-relative and protocol-relative cases are dispatched first. -/
def urljoin (base0 ref0 : Str) : Str :=
  match cleanseUrl ref0 with
  | [] => cleanseUrl base0
  | c :: tail =>
    if c = '/' then
      if tail.head? = some '/' then
        (pyUrlparse (cleanseUrl base0)).1 ++ [':'] ++ c :: tail
      else schemeNetloc (cleanseUrl base0) ++ resolvePath (splitSlash (c :: tail))
    else
      match splitScheme (c :: tail) with
      | some _ => c :: tail
      | none =>
        schemeNetloc (cleanseUrl base0)
          ++ resolvePath (mergeSegments (pathOf (cleanseUrl base0)) (c :: tail))

/-- Association-list lookup for element attributes. -/
def lookupAttr (attrs : List (Str × Str)) (name : Str) : Option Str :=
  match attrs.find? (fun p => p.1 = name) with
  | some p => some p.2
  | none => none

/-- Modelled from the spec: `scraper.py` imports `safe_get` from the
helpers module, but the provided helper sources do not define it.  Spec
§9 gives the node capability `attribute(name) -> optional string`;
accordingly `safe_get` returns the node's attribute value, or `None`
when the node is absent or lacks the attribute. -/
def safe_get (tag : Option Elem) (attr : Str) : Option Str :=
  match tag with
  | none => none
  | some t => lookupAttr t.attrs attr

/-- Python `utils.extract_url`: default when the tag is absent/falsy, lacks the
attribute, or the value is empty; a relative value (no netloc) is joined
onto a truthy `base_url`; the result is returned only if it passes
`is_valid_url`, else the default. -/
def extract_url (tag : Option Elem) (attr : Str := chars "href")
    (dflt : Option Str := none) (base_url : Option Str := none) : Option Str :=
  match tag with
  | none => dflt
  | some t =>
    if t.childCount = 0 then dflt
    else
      match lookupAttr t.attrs attr with
      | none => dflt
      | some url =>
        if url = [] then dflt
        else
          let url2 :=
            match base_url with
            | some b => if b ≠ [] ∧ (pyUrlparse url).2 = [] then urljoin b url else url
            | none => url
          if is_valid_url (some url2) then some url2 else dflt

example : is_valid_url (some (chars "https://quotes.toscrape.com")) = true := by decide
example : is_valid_url (some (chars "/author/X")) = false := by decide
example : urljoin (chars "https://quotes.toscrape.com") (chars "/page/2/")
    = chars "https://quotes.toscrape.com/page/2/" := by decide
example : urljoin (chars "https://quotes.toscrape.com") (chars "author/X")
    = chars "https://quotes.toscrape.com/author/X" := by decide
example : urljoin (chars "https://quotes.toscrape.com") (chars "https://other.com/x")
    = chars "https://other.com/x" := by decide
example : urljoin (chars "https://quotes.toscrape.com") (chars "/author/../X")
    = chars "https://quotes.toscrape.com/X" := by decide
example : urljoin (chars "https://quotes.toscrape.com") (chars "/a/./b")
    = chars "https://quotes.toscrape.com/a/b" := by decide
example : urljoin (chars "https://quotes.toscrape.com") (chars "/..")
    = chars "https://quotes.toscrape.com/" := by decide
example : urljoin (chars "https://quotes.toscrape.com/tag/love/") (chars "page/2/")
    = chars "https://quotes.toscrape.com/tag/love/page/2/" := by decide
example : urljoin (chars "https://quotes.toscrape.com") (chars "/a\t/b")
    = chars "https://quotes.toscrape.com/a/b" := by decide
example : urljoin (chars "https://quotes.toscrape.com") (chars "/a//b")
    = chars "https://quotes.toscrape.com/a//b" := by decide

/-- C6: `extract_url` returns either the caller-supplied default or a
value accepted by `is_valid_url` (a parse with both a scheme and a
netloc). -/
theorem extract_url_valid_or_default (tag : Option Elem) (attr : Str)
    (dflt : Option Str) (base_url : Option Str) :
    extract_url tag attr dflt base_url = dflt ∨
      is_valid_url (extract_url tag attr dflt base_url) = true := by
  rw [extract_url.eq_def]
  cases tag with
  | none => exact Or.inl rfl
  | some t =>
    dsimp only
    by_cases hcc : t.childCount = 0
    · rw [if_pos hcc]
      exact Or.inl rfl
    · rw [if_neg hcc]
      cases lookupAttr t.attrs attr with
      | none => exact Or.inl rfl
      | some url =>
        dsimp only
        by_cases hu : url = []
        · rw [if_pos hu]
          exact Or.inl rfl
        · rw [if_neg hu]
          split
          · next hvalid => exact Or.inr hvalid
          · exact Or.inl rfl

/-- Python `scraper.BASE_URL`. -/
def BASE_URL : Str := chars "https://quotes.toscrape.com"

/-- One `div.quote` element of a listing page, carrying exactly the
sub-nodes `fetch_quotes` queries: `span.text`, `small.author`, the first
`a` anchor, and the `a.tag` anchors. -/
structure QuoteElem where
  textSpan : Option Elem := none
  authorSmall : Option Elem := none
  firstA : Option Elem := none
  tagAnchors : List Elem := []
deriving DecidableEq, Repr

/-- The dictionary `fetch_quotes` appends per quote element. -/
structure QuoteRec where
  quote : Str
  author : Str
  author_url : Option Str
  tags : List Str
deriving DecidableEq, Repr

/-- The body of `fetch_quotes`'s per-element loop: extract text, author,
author URL (the raw `href`, prefixed with `BASE_URL` by string
concatenation when truthy) and the non-blank tags. -/
def fetchQuoteElem (q : QuoteElem) : QuoteRec :=
  let text := extract_text q.textSpan (chars "No text available")
  let author := extract_text q.authorSmall (chars "Unknown Author")
  let raw := safe_get q.firstA (chars "href")
  let author_url :=
    match raw with
    | some u => if u ≠ [] then some (BASE_URL ++ u) else some u
    | none => none
  let tags := (q.tagAnchors.filter (fun t => pyStrip (tagText t) ≠ [])).map
    (fun t => extract_text (some t) [])
  { quote := text, author := author, author_url := author_url, tags := tags }

/-- The `li.next` pagination element: the `href` of its first anchor
that carries one, if any. -/
structure NextLi where
  anchorHref : Option Str := none
deriving DecidableEq, Repr

/-- A parsed page body, carrying every selector result the code reads;
selectors absent from the page give `none`/`[]`. -/
structure Soup where
  quoteDivs : List QuoteElem := []
  nextLi : Option NextLi := none
  authorTitle : Option Elem := none
  authorBornDate : Option Elem := none
  authorBornLocation : Option Elem := none
  authorDescription : Option Elem := none
deriving DecidableEq, Repr

/-- Python `scraper.fetch_quotes`: one record per `div.quote` element.  (The
per-element `try/except` is dead in the embedding: no extraction step
can raise.) -/
def fetch_quotes (soup : Soup) : List QuoteRec :=
  soup.quoteDivs.map fetchQuoteElem

/-- Helper: the `author_url` a quote element with a truthy href emits is
the plain concatenation `BASE_URL + href`. -/
theorem fetchQuoteElem_author_url_eq (q : QuoteElem) (a : Elem) (h : Str)
    (ha : q.firstA = some a) (hh : lookupAttr a.attrs (chars "href") = some h)
    (hne : h ≠ []) :
    (fetchQuoteElem q).author_url = some (BASE_URL ++ h) := by
  rw [fetchQuoteElem]
  dsimp only
  rw [safe_get.eq_def, ha]
  dsimp only
  rw [hh]
  simp [hne]

/-- C9: when the first anchor of a quote element has a non-empty `href`,
the emitted `author_url` is the literal string concatenation
`BASE_URL + href`, and hence always starts with
`https://quotes.toscrape.com` — even for an already-absolute `href`. -/
theorem author_url_is_concat (q : QuoteElem) (a : Elem) (h : Str)
    (ha : q.firstA = some a) (hh : lookupAttr a.attrs (chars "href") = some h)
    (hne : h ≠ []) :
    (fetchQuoteElem q).author_url = some (BASE_URL ++ h) ∧
      BASE_URL <+: BASE_URL ++ h :=
  ⟨fetchQuoteElem_author_url_eq q a h ha hh hne, h, rfl⟩

/-- Closed witness for C9 at a concrete quote element whose `href` is
itself already an absolute URL. -/
theorem author_url_is_concat_witness :
    (fetchQuoteElem
        { firstA := some { attrs := [(chars "href", chars "https://other.com/x")] } }).author_url
      = some (BASE_URL ++ chars "https://other.com/x") ∧
      BASE_URL <+: BASE_URL ++ chars "https://other.com/x" :=
  author_url_is_concat _ _ _ rfl (by decide) (by decide)

/-- The full month names matched by the `%B` directive, with their
numbers.  No name is a prefix of another, so alternation order is
immaterial. -/
def monthNames : List (String × Nat) :=
  [("january", 1), ("february", 2), ("march", 3), ("april", 4), ("may", 5),
   ("june", 6), ("july", 7), ("august", 8), ("september", 9), ("october", 10),
   ("november", 11), ("december", 12)]

/-- Case-insensitively strip a (lower-case) pattern from the front of the
input, returning the remainder. -/
def stripCI : Str → Str → Option Str
  | [], s => some s
  | _, [] => none
  | p :: ps, c :: cs => if asciiLower c = p then stripCI ps cs else none

/-- Try each month name in turn (`%B`). -/
def matchMonthAux : List (String × Nat) → Str → Option (Nat × Str)
  | [], _ => none
  | (name, m) :: rest, s =>
    match stripCI (chars name) s with
    | some r => some (m, r)
    | none => matchMonthAux rest s

def matchMonth (s : Str) : Option (Nat × Str) := matchMonthAux monthNames s

/-- Whitespace in a `strptime` format matches one or more whitespace
characters (`\s+`). -/
def parseWs1 : Str → Option Str
  | [] => none
  | c :: rest => if isWs c then some (rest.dropWhile isWs) else none

def digitVal (c : Char) : Nat := c.toNat - '0'.toNat

def isDigit (c : Char) : Bool := '0' ≤ c && c ≤ '9'

/-- The `%d` directive, per CPython's regex
`3[01]|[12]\d|0[1-9]|[1-9]| [1-9]`. -/
def parseDay : Str → Option (Nat × Str)
  | [] => none
  | [c1] => if '1' ≤ c1 && c1 ≤ '9' then some (digitVal c1, []) else none
  | c1 :: c2 :: rest =>
    if c1 = '3' && (c2 = '0' || c2 = '1') then some (30 + digitVal c2, rest)
    else if (c1 = '1' || c1 = '2') && isDigit c2 then
      some (10 * digitVal c1 + digitVal c2, rest)
    else if c1 = '0' && ('1' ≤ c2 && c2 ≤ '9') then some (digitVal c2, rest)
    else if '1' ≤ c1 && c1 ≤ '9' then some (digitVal c1, c2 :: rest)
    else if c1 = ' ' && ('1' ≤ c2 && c2 ≤ '9') then some (digitVal c2, rest)
    else none

/-- The `%Y` directive: exactly four digits. -/
def parseYear4 : Str → Option (Nat × Str)
  | a :: b :: c :: d :: rest =>
    if isDigit a && isDigit b && isDigit c && isDigit d then
      some (1000 * digitVal a + 100 * digitVal b + 10 * digitVal c + digitVal d, rest)
    else none
  | _ => none

def isLeap (y : Nat) : Bool := (y % 4 = 0 && y % 100 ≠ 0) || y % 400 = 0

def daysInMonth (y m : Nat) : Nat :=
  if m = 2 then (if isLeap y then 29 else 28)
  else if m = 4 || m = 6 || m = 9 || m = 11 then 30
  else 31

/-- Model of `datetime.strptime(s, "%B %d, %Y")`: month name, whitespace,
day, literal comma, whitespace, four-digit year; the whole string must be
consumed and the resulting calendar date must be constructible
(`datetime` validates the day against the month and `MINYEAR = 1`).
Returns `(year, month, day)`. -/
def strptimeBdY (s : Str) : Option (Nat × Nat × Nat) := do
  let (m, s1) ← matchMonth s
  let s2 ← parseWs1 s1
  let (d, s3) ← parseDay s2
  let s4 ← match s3 with
    | ',' :: r => some r
    | _ => none
  let s5 ← parseWs1 s4
  let (y, s6) ← parseYear4 s5
  if s6 = [] ∧ 1 ≤ y ∧ d ≤ daysInMonth y m then pure (y, m, d) else none

def digitChar (n : Nat) : Char := Char.ofNat ('0'.toNat + n)

def pad2 (n : Nat) : Str := [digitChar ((n / 10) % 10), digitChar (n % 10)]

def pad4 (n : Nat) : Str :=
  [digitChar ((n / 1000) % 10), digitChar ((n / 100) % 10),
   digitChar ((n / 10) % 10), digitChar (n % 10)]

/-- Python `datetime.strftime("%Y-%m-%d")` on the parsed date. -/
def formatYmd : Nat × Nat × Nat → Str
  | (y, m, d) => pad4 y ++ '-' :: pad2 m ++ '-' :: pad2 d

/-- Python `utils.parse_date` at the module's default format `"%B %d, %Y"` (the
only format the repository uses): strip, parse, re-format, with any
parse failure yielding `None` instead of an exception. -/
def parse_date (date_string : Str) : Option Str :=
  (strptimeBdY (pyStrip date_string)).map formatYmd

example : parse_date (chars "August 28, 1954") = some (chars "1954-08-28") := by decide
example : parse_date (chars "February 30, 2020") = none := by decide
example : parse_date (chars "  March 1, 2000 ") = some (chars "2000-03-01") := by decide
example : parse_date [] = none := by decide

/-- C7: `parse_date` maps `"August 28, 1954"` (under the default format
`"%B %d, %Y"`) to `"1954-08-28"`, and yields `None` — rather than
raising — on every string the format parser rejects, such as
`"not a date"`. -/
theorem parse_date_spec :
    parse_date (chars "August 28, 1954") = some (chars "1954-08-28") ∧
    parse_date (chars "not a date") = none ∧
    ∀ s : Str, strptimeBdY (pyStrip s) = none → parse_date s = none := by
  refine ⟨by decide, by decide, ?_⟩
  intro s h
  rw [parse_date, h]
  rfl

/-- Closed witness for C7's universally quantified rejection clause. -/
theorem parse_date_spec_witness :
    strptimeBdY (pyStrip (chars "yesterday")) = none ∧
    parse_date (chars "yesterday") = none :=
  ⟨by decide, parse_date_spec.2.2 (chars "yesterday") (by decide)⟩

/-- Failure signals of one HTTP GET as the code distinguishes them: an
`aiohttp.ClientError` transport failure, a non-success status raised by
`raise_for_status()` (a `ClientResponseError`, also a `ClientError`),
or any other unexpected exception inside the `try` block. -/
inductive FetchErr
  | transport
  | status (code : Nat)
  | unexpected
deriving DecidableEq, Repr

/-- Outcome of one HTTP GET followed by parsing. -/
inductive FetchResult
  | ok (soup : Soup)
  | err (e : FetchErr)
deriving DecidableEq, Repr

/-- The network: a response for each URL and per-URL request ordinal
(the controller deliberately fetches each listing page twice, so
responses may vary between hits). -/
def Site := Str → Nat → FetchResult

/-- Per-URL hit counters of the session. -/
def Hits := List (Str × Nat)

def getHits (st : Hits) (u : Str) : Nat :=
  match st.find? (fun p => p.1 = u) with
  | some p => p.2
  | none => 0

def bumpHits : Hits → Str → Hits
  | [], u => [(u, 1)]
  | (v, n) :: rest, u =>
    if v = u then (v, n + 1) :: rest else (v, n) :: bumpHits rest u

/-- One `session.get`: consume the URL's next response. -/
def httpGet (site : Site) (st : Hits) (u : Str) : FetchResult × Hits :=
  (site u (getHits st u), bumpHits st u)

/-- The author-detail dictionary on the success path. -/
structure AuthorRec where
  fullname : Str
  birth_date : Option Str
  birth_place : Str
  bio : Str
deriving DecidableEq, Repr

/-- Result type: `fetch_author_details` returns either the populated dictionary or
the empty dictionary `{}` produced by its exception handlers. -/
inductive AuthorResult
  | empty
  | det (r : AuthorRec)
deriving DecidableEq, Repr

/-- Python `scraper.fetch_author_details`: GET the author page; on any failure
log and return `{}`; on success extract the four fields with their
defaults. -/
def fetch_author_details (site : Site) (st : Hits) (author_url : Str) :
    AuthorResult × Hits :=
  match httpGet site st author_url with
  | (.err _, st2) => (.empty, st2)
  | (.ok soup, st2) =>
    (.det {
      fullname := extract_text soup.authorTitle (chars "Unknown Author"),
      birth_date := parse_date (extract_text soup.authorBornDate []),
      birth_place := extract_text soup.authorBornLocation (chars "Unknown Location"),
      bio := extract_text soup.authorDescription (chars "No bio available") }, st2)

/-- First-occurrence deduplication, the deterministic representative of
the Python set comprehension in `scrape_page_data`. -/
def dedupAux (seen : List Str) : List Str → List Str
  | [] => []
  | u :: rest =>
    if u ∈ seen then dedupAux seen rest else u :: dedupAux (u :: seen) rest

/-- The set `authors_urls`: the distinct truthy author URLs of the
page's quotes that are not already in `fetched_authors`. -/
def pageAuthorUrls (quotes : List QuoteRec) (fetched : List Str) : List Str :=
  dedupAux []
    ((quotes.filterMap (fun q => q.author_url)).filter
      (fun u => decide (u ≠ [] ∧ u ∉ fetched)))

/-- Model of `asyncio.gather` over the author fetches: dispatched in URL order,
results collected positionally (the cooperative scheduler interleaves
no application logic, so the session state threads sequentially). -/
def fetchAuthorsList (site : Site) : Hits → List Str → List AuthorResult × Hits
  | st, [] => ([], st)
  | st, u :: rest =>
    let pr := fetch_author_details site st u
    let more := fetchAuthorsList site pr.2 rest
    (pr.1 :: more.1, more.2)

/-- Python `scraper.scrape_page_data`: GET the page; on any failure return
`([], [])` leaving `fetched_authors` untouched; on success extract the
quotes, fetch details for the page's new author URLs, add those URLs to
`fetched_authors`, and return both lists.  Result:
`((quotes, authors_details), fetched_authors, hit-state)`. -/
def scrape_page_data (site : Site) (st : Hits) (page_url : Str)
    (fetched_authors : List Str) :
    (List QuoteRec × List AuthorResult) × List Str × Hits :=
  match httpGet site st page_url with
  | (.err _, st2) => (([], []), fetched_authors, st2)
  | (.ok soup, st2) =>
    let quotes := fetch_quotes soup
    let authors_urls := pageAuthorUrls quotes fetched_authors
    let fr := fetchAuthorsList site st2 authors_urls
    ((quotes, fr.1), fetched_authors ++ authors_urls, fr.2)

/-- The value returned by `scrape_all_data`, extended with the list of
page URLs whose scrape step actually ran (in order), which makes the
termination behaviour of the pagination loop observable. -/
structure CrawlResult where
  all_quotes : List QuoteRec
  all_authors : List AuthorResult
  fetched_authors : List Str
  visited : List Str
deriving DecidableEq, Repr

def startsWithHttp (s : Str) : Bool := (chars "http").isPrefixOf s

/-- The `while current_url:` loop of `scrape_all_data`.  Each iteration
scrapes the cursor page, re-fetches the same URL to locate the
`li.next` link, and either follows it (prefixing `BASE_URL` unless the
href starts with `http`) or clears the cursor; a `ClientError` or any
other exception from the next-link lookup ends the loop with the
results accumulated so far.  `fuel` bounds the number of iterations,
standing in for the unbounded `while`. -/
def scrapeLoop (site : Site) :
    Nat → Option Str → Hits → List Str → List QuoteRec → List AuthorResult →
    List Str → CrawlResult
  | 0, _, _, seen, accQ, accA, visited => ⟨accQ, accA, seen, visited⟩
  | _ + 1, none, _, seen, accQ, accA, visited => ⟨accQ, accA, seen, visited⟩
  | fuel + 1, some url, st, seen, accQ, accA, visited =>
    let pr := scrape_page_data site st url seen
    let accQ2 := accQ ++ pr.1.1
    let accA2 := accA ++ pr.1.2
    let seen2 := pr.2.1
    let visited2 := visited ++ [url]
    match httpGet site pr.2.2 url with
    | (.err _, _) => ⟨accQ2, accA2, seen2, visited2⟩
    | (.ok soup, st3) =>
      match soup.nextLi with
      | some li =>
        match li.anchorHref with
        | some href =>
          scrapeLoop site fuel
            (some (if startsWithHttp href then href else BASE_URL ++ href))
            st3 seen2 accQ2 accA2 visited2
        | none => scrapeLoop site fuel none st3 seen2 accQ2 accA2 visited2
      | none => scrapeLoop site fuel none st3 seen2 accQ2 accA2 visited2

/-- Python `scraper.scrape_all_data`: start at `BASE_URL` with empty
accumulators, empty `fetched_authors` and a fresh session. -/
def scrape_all_data (site : Site) (fuel : Nat) : CrawlResult :=
  scrapeLoop site fuel (some BASE_URL) [] [] [] [] []

/-- C3: a failed author-page GET (transport error or non-success status)
or any unexpected error makes `fetch_author_details` return the empty
record without propagating; a successful GET yields a populated record
whose fields fall back to `"Unknown Author"`, `None`,
`"Unknown Location"` and `"No bio available"` when the corresponding
page elements are missing. -/
theorem fetch_author_details_spec (site : Site) (st : Hits) (url : Str) :
    (∀ e : FetchErr, site url (getHits st url) = .err e →
      (fetch_author_details site st url).1 = .empty) ∧
    (∀ soup : Soup, site url (getHits st url) = .ok soup →
      ∃ r : AuthorRec, (fetch_author_details site st url).1 = .det r ∧
        (soup.authorTitle = none → r.fullname = chars "Unknown Author") ∧
        (soup.authorBornDate = none → r.birth_date = none) ∧
        (soup.authorBornLocation = none → r.birth_place = chars "Unknown Location") ∧
        (soup.authorDescription = none → r.bio = chars "No bio available")) := by
  constructor
  · intro e he
    rw [fetch_author_details.eq_def, httpGet, he]
  · intro soup hs
    rw [fetch_author_details.eq_def, httpGet, hs]
    refine ⟨_, rfl, ?_, ?_, ?_, ?_⟩ <;> intro h <;> rw [h] <;> rfl

/-- A network on which every request fails with a transport error. -/
def errSite : Site := fun _ _ => .err .transport

/-- Closed witness for C3's failure clause at a concrete URL. -/
theorem fetch_author_details_spec_witness :
    (fetch_author_details errSite [] (chars "https://quotes.toscrape.com/author/X")).1
      = .empty :=
  (fetch_author_details_spec errSite [] _).1 .transport rfl

/-- C10: when the listing-page GET fails with any error, the page scrape
returns the empty pair and leaves the seen-authors set unchanged. -/
theorem scrape_page_failure_isolated (site : Site) (st : Hits) (url : Str)
    (seen : List Str) (e : FetchErr) (h : site url (getHits st url) = .err e) :
    scrape_page_data site st url seen = (([], []), seen, bumpHits st url) := by
  rw [scrape_page_data.eq_def, httpGet, h]

/-- Closed witness for C10 at a concrete failing page. -/
theorem scrape_page_failure_isolated_witness :
    scrape_page_data errSite [] (chars "https://quotes.toscrape.com")
        [chars "https://quotes.toscrape.com/author/X"]
      = (([], []), [chars "https://quotes.toscrape.com/author/X"],
         [(chars "https://quotes.toscrape.com", 1)]) :=
  scrape_page_failure_isolated errSite [] _ _ .transport rfl

/-- C8: when the next-link lookup GET fails with a transport error right
after a page's scrape step succeeded, the crawl loop stops at once —
regardless of remaining fuel — and the returned result still contains
that page's quotes and author records. -/
theorem next_link_failure_stops (site : Site) (fuel : Nat) (st : Hits)
    (url : Str) (seen : List Str) (accQ : List QuoteRec)
    (accA : List AuthorResult) (visited : List Str) (soup : Soup)
    (_hok : site url (getHits st url) = .ok soup)
    (hfail : site url (getHits (scrape_page_data site st url seen).2.2 url)
      = .err .transport) :
    scrapeLoop site (fuel + 1) (some url) st seen accQ accA visited =
      ⟨accQ ++ (scrape_page_data site st url seen).1.1,
       accA ++ (scrape_page_data site st url seen).1.2,
       (scrape_page_data site st url seen).2.1,
       visited ++ [url]⟩ := by
  simp only [scrapeLoop]
  rw [httpGet, hfail]

/-- A network whose page `P` answers its first GET and fails the
second. -/
def flakySite : Site := fun u n =>
  if u = chars "P" ∧ n = 0 then .ok { } else .err .transport

/-- Closed witness for C8 on `flakySite`. -/
theorem next_link_failure_stops_witness :
    scrapeLoop flakySite 1 (some (chars "P")) [] [] [] [] [] =
      ⟨[] ++ (scrape_page_data flakySite [] (chars "P") []).1.1,
       [] ++ (scrape_page_data flakySite [] (chars "P") []).1.2,
       (scrape_page_data flakySite [] (chars "P") []).2.1,
       [] ++ [chars "P"]⟩ :=
  next_link_failure_stops flakySite 0 [] (chars "P") [] [] [] [] { }
    (by decide) (by decide)

/-- A leaf element holding one text fragment. -/
def mkTextElem (s : String) : Elem := { texts := [chars s], childCount := 1 }

/-- A quote element with the given text, author name and author href. -/
def mkQuoteElem (txt auth href : String) : QuoteElem :=
  { textSpan := some (mkTextElem txt), authorSmall := some (mkTextElem auth),
    firstA := some { attrs := [(chars "href", chars href)] }, tagAnchors := [] }

/-- Mock listing page 1: ten quotes from three distinct authors and a
next link to page 2. -/
def page1Soup : Soup :=
  { quoteDivs :=
      [mkQuoteElem "Q1" "Alpha" "/author/Alpha", mkQuoteElem "Q2" "Beta" "/author/Beta",
       mkQuoteElem "Q3" "Gamma" "/author/Gamma", mkQuoteElem "Q4" "Alpha" "/author/Alpha",
       mkQuoteElem "Q5" "Beta" "/author/Beta", mkQuoteElem "Q6" "Gamma" "/author/Gamma",
       mkQuoteElem "Q7" "Alpha" "/author/Alpha", mkQuoteElem "Q8" "Beta" "/author/Beta",
       mkQuoteElem "Q9" "Gamma" "/author/Gamma", mkQuoteElem "Q10" "Alpha" "/author/Alpha"],
    nextLi := some { anchorHref := some (chars "/page/2/") } }

/-- Mock listing page 2: two quotes from one new author, no next link. -/
def page2Soup : Soup :=
  { quoteDivs :=
      [mkQuoteElem "Q11" "Delta" "/author/Delta",
       mkQuoteElem "Q12" "Delta" "/author/Delta"],
    nextLi := none }

/-- A mock author-detail page. -/
def authorPage (name : String) : Soup := { authorTitle := some (mkTextElem name) }

/-- The two-page mock site of the end-to-end property. -/
def mockSite : Site := fun u _ =>
  if u = BASE_URL then .ok page1Soup
  else if u = BASE_URL ++ chars "/page/2/" then .ok page2Soup
  else if u = BASE_URL ++ chars "/author/Alpha" then .ok (authorPage "Alpha A")
  else if u = BASE_URL ++ chars "/author/Beta" then .ok (authorPage "Beta B")
  else if u = BASE_URL ++ chars "/author/Gamma" then .ok (authorPage "Gamma C")
  else if u = BASE_URL ++ chars "/author/Delta" then .ok (authorPage "Delta D")
  else .err .transport

/-- C2: on the two-page mock site the full crawl returns exactly 12
quotes and exactly 4 author records, and — for every fuel bound large
enough to let the loop run — the scrape step runs on exactly the two
listing pages, so no page step follows page 2. -/
theorem scrape_all_mock (n : Nat) :
    (scrape_all_data mockSite (n + 3)).all_quotes.length = 12 ∧
    (scrape_all_data mockSite (n + 3)).all_authors.length = 4 ∧
    (scrape_all_data mockSite (n + 3)).visited
      = [BASE_URL, BASE_URL ++ chars "/page/2/"] :=
  ⟨rfl, rfl, rfl⟩

theorem count_eq_one_of_nodup_mem : ∀ (l : List Str) (u : Str),
    l.Nodup → u ∈ l → l.count u = 1
  | [], u, _, hm => absurd hm (List.not_mem_nil u)
  | v :: l, u, hn, hm => by
    obtain ⟨hv, hn2⟩ := List.nodup_cons.mp hn
    rcases List.mem_cons.mp hm with rfl | hml
    · rw [List.count_cons_self, List.count_eq_zero.mpr hv]
    · have hne : u ≠ v := fun heq => hv (heq ▸ hml)
      rw [List.count_cons_of_ne hne, count_eq_one_of_nodup_mem l u hn2 hml]

theorem mem_dedupAux : ∀ (l seen : List Str) (u : Str),
    u ∈ dedupAux seen l ↔ u ∈ l ∧ u ∉ seen
  | [], seen, u => by simp [dedupAux]
  | v :: rest, seen, u => by
    rw [dedupAux]
    split
    · next hv =>
      rw [mem_dedupAux rest seen u, List.mem_cons]
      constructor
      · exact fun h => ⟨Or.inr h.1, h.2⟩
      · rintro ⟨rfl | h1, h2⟩
        · exact absurd hv h2
        · exact ⟨h1, h2⟩
    · next hv =>
      simp only [List.mem_cons, mem_dedupAux rest (v :: seen) u]
      constructor
      · rintro (rfl | ⟨h1, h2⟩)
        · exact ⟨Or.inl rfl, hv⟩
        · exact ⟨Or.inr h1, fun hs => h2 (Or.inr hs)⟩
      · rintro ⟨rfl | h1, h2⟩
        · exact Or.inl rfl
        · by_cases huv : u = v
          · exact Or.inl huv
          · exact Or.inr ⟨h1, fun hs => (hs.elim huv h2)⟩

theorem dedupAux_nodup : ∀ (l seen : List Str), (dedupAux seen l).Nodup
  | [], _ => List.nodup_nil
  | v :: rest, seen => by
    rw [dedupAux]
    split
    · exact dedupAux_nodup rest seen
    · refine List.nodup_cons.mpr ⟨?_, dedupAux_nodup rest (v :: seen)⟩
      intro hmem
      exact ((mem_dedupAux rest (v :: seen) v).mp hmem).2 (List.mem_cons_self v seen)

theorem pageAuthorUrls_nodup (quotes : List QuoteRec) (fetched : List Str) :
    (pageAuthorUrls quotes fetched).Nodup :=
  dedupAux_nodup _ _

theorem mem_pageAuthorUrls (quotes : List QuoteRec) (fetched : List Str) (u : Str) :
    u ∈ pageAuthorUrls quotes fetched ↔
      (∃ q ∈ quotes, q.author_url = some u) ∧ u ≠ [] ∧ u ∉ fetched := by
  rw [pageAuthorUrls, mem_dedupAux]
  simp [List.mem_filter, List.mem_filterMap]

theorem fetchAuthorsList_length (site : Site) : ∀ (st : Hits) (l : List Str),
    (fetchAuthorsList site st l).1.length = l.length
  | _, [] => rfl
  | st, u :: rest => by
    rw [fetchAuthorsList]
    dsimp only
    rw [List.length_cons, List.length_cons,
      fetchAuthorsList_length site (fetch_author_details site st u).2 rest]

/-- One page scrape appends a duplicate-free batch of fresh URLs to the
seen-authors set, fetches exactly one author record per appended URL,
and every truthy author URL of the returned quotes ends up in the
updated set. -/
theorem scrape_page_spec (site : Site) (st : Hits) (url : Str) (seen : List Str) :
    ∃ new : List Str,
      (scrape_page_data site st url seen).2.1 = seen ++ new ∧
      new.Nodup ∧
      (∀ u ∈ new, u ∉ seen) ∧
      (scrape_page_data site st url seen).1.2.length = new.length ∧
      (∀ q ∈ (scrape_page_data site st url seen).1.1, ∀ u : Str,
        q.author_url = some u → u ≠ [] → u ∈ seen ++ new) := by
  rw [scrape_page_data.eq_def, httpGet]
  cases hres : site url (getHits st url) with
  | err e =>
    dsimp only
    exact ⟨[], by simp, List.nodup_nil, by simp, by simp, by simp⟩
  | ok soup =>
    dsimp only
    refine ⟨pageAuthorUrls (fetch_quotes soup) seen, rfl,
      pageAuthorUrls_nodup _ _, ?_, fetchAuthorsList_length site _ _, ?_⟩
    · intro u hu
      exact ((mem_pageAuthorUrls _ _ _).mp hu).2.2
    · intro q hq u hqu hune
      rw [List.mem_append]
      by_cases hseen : u ∈ seen
      · exact Or.inl hseen
      · exact Or.inr ((mem_pageAuthorUrls _ _ _).mpr ⟨⟨q, hq, hqu⟩, hune, hseen⟩)

/-- Crawl-loop invariant: from any state the loop only appends to the
seen-authors set, the appended batch is duplicate-free and fresh,
exactly one author record is emitted per appended URL, and every truthy
author URL of the emitted quotes lands in the final set. -/
theorem scrapeLoop_inv (site : Site) :
    ∀ (fuel : Nat) (cur : Option Str) (st : Hits) (seen : List Str)
      (accQ : List QuoteRec) (accA : List AuthorResult) (visited : List Str),
      ∃ d : List Str,
        (scrapeLoop site fuel cur st seen accQ accA visited).fetched_authors
          = seen ++ d ∧
        d.Nodup ∧ (∀ u ∈ d, u ∉ seen) ∧
        (scrapeLoop site fuel cur st seen accQ accA visited).all_authors.length
          = accA.length + d.length ∧
        ((∀ q ∈ accQ, ∀ u : Str, q.author_url = some u → u ≠ [] → u ∈ seen) →
          ∀ q ∈ (scrapeLoop site fuel cur st seen accQ accA visited).all_quotes,
            ∀ u : Str, q.author_url = some u → u ≠ [] → u ∈ seen ++ d)
  | 0, cur, st, seen, accQ, accA, visited =>
    ⟨[], by simp [scrapeLoop], List.nodup_nil, by simp, by simp [scrapeLoop],
     fun hpre => by simpa [scrapeLoop] using hpre⟩
  | fuel + 1, none, st, seen, accQ, accA, visited =>
    ⟨[], by simp [scrapeLoop], List.nodup_nil, by simp, by simp [scrapeLoop],
     fun hpre => by simpa [scrapeLoop] using hpre⟩
  | fuel + 1, some url, st, seen, accQ, accA, visited => by
    obtain ⟨new, hseen2, hnodup, hdisj, hlen, hq⟩ := scrape_page_spec site st url seen
    simp only [scrapeLoop]
    rw [httpGet]
    cases hres : site url (getHits (scrape_page_data site st url seen).2.2 url) with
    | err e =>
      dsimp only
      refine ⟨new, hseen2, hnodup, hdisj, ?_, ?_⟩
      · rw [List.length_append, hlen]
      · intro hpre q hqm u hqu hune
        rcases List.mem_append.mp hqm with hqa | hqp
        · exact List.mem_append.mpr (Or.inl (hpre q hqa u hqu hune))
        · exact hq q hqp u hqu hune
    | ok soup =>
      dsimp only
      have step :
          ∀ (cur2 : Option Str) (st3 : Hits),
            ∃ d : List Str,
              (scrapeLoop site fuel cur2 st3 ((scrape_page_data site st url seen).2.1)
                  (accQ ++ (scrape_page_data site st url seen).1.1)
                  (accA ++ (scrape_page_data site st url seen).1.2)
                  (visited ++ [url])).fetched_authors = seen ++ d ∧
              d.Nodup ∧ (∀ u ∈ d, u ∉ seen) ∧
              (scrapeLoop site fuel cur2 st3 ((scrape_page_data site st url seen).2.1)
                  (accQ ++ (scrape_page_data site st url seen).1.1)
                  (accA ++ (scrape_page_data site st url seen).1.2)
                  (visited ++ [url])).all_authors.length
                = accA.length + d.length ∧
              ((∀ q ∈ accQ, ∀ u : Str, q.author_url = some u → u ≠ [] → u ∈ seen) →
                ∀ q ∈ (scrapeLoop site fuel cur2 st3
                    ((scrape_page_data site st url seen).2.1)
                    (accQ ++ (scrape_page_data site st url seen).1.1)
                    (accA ++ (scrape_page_data site st url seen).1.2)
                    (visited ++ [url])).all_quotes,
                  ∀ u : Str, q.author_url = some u → u ≠ [] → u ∈ seen ++ d) := by
        intro cur2 st3
        obtain ⟨d2, hd1, hd2, hd3, hd4, hd5⟩ :=
          scrapeLoop_inv site fuel cur2 st3 ((scrape_page_data site st url seen).2.1)
            (accQ ++ (scrape_page_data site st url seen).1.1)
            (accA ++ (scrape_page_data site st url seen).1.2)
            (visited ++ [url])
        refine ⟨new ++ d2, ?_, ?_, ?_, ?_, ?_⟩
        · rw [hd1, hseen2, List.append_assoc]
        · refine hnodup.append hd2 ?_
          intro a ha had2
          exact hd3 a had2 (hseen2 ▸ List.mem_append.mpr (Or.inr ha))
        · intro u hu
          rcases List.mem_append.mp hu with h1 | h1
          · exact hdisj u h1
          · intro hus
            exact hd3 u h1 (hseen2 ▸ List.mem_append.mpr (Or.inl hus))
        · rw [hd4, List.length_append, List.length_append, hlen, Nat.add_assoc]
        · intro hpre q hqm u hqu hune
          have hpre2 : ∀ q ∈ accQ ++ (scrape_page_data site st url seen).1.1,
              ∀ u : Str, q.author_url = some u → u ≠ [] →
                u ∈ (scrape_page_data site st url seen).2.1 := by
            intro q2 hq2 u2 hqu2 hune2
            rcases List.mem_append.mp hq2 with hqa | hqp
            · exact hseen2 ▸ List.mem_append.mpr (Or.inl (hpre q2 hqa u2 hqu2 hune2))
            · exact hseen2 ▸ hq q2 hqp u2 hqu2 hune2
          have hres2 := hd5 hpre2 q hqm u hqu hune
          rw [hseen2, List.append_assoc] at hres2
          exact hres2
      cases soup.nextLi with
      | none =>
        dsimp only
        exact step none _
      | some li =>
        dsimp only
        cases li.anchorHref with
        | none =>
          dsimp only
          exact step none _
        | some href =>
          dsimp only
          exact step _ _

/-- C1: over a whole crawl run, the seen-authors set ends up
duplicate-free, exactly one author-detail fetch result is collected per
entry of that set, every distinct truthy author URL referenced by the
returned quotes occurs in the set exactly once, and from any
intermediate state the loop only ever appends to the set. -/
theorem seen_authors_exactly_once (site : Site) (fuel : Nat) :
    (scrape_all_data site fuel).fetched_authors.Nodup ∧
    (scrape_all_data site fuel).all_authors.length
      = (scrape_all_data site fuel).fetched_authors.length ∧
    (∀ q ∈ (scrape_all_data site fuel).all_quotes, ∀ u : Str,
      q.author_url = some u → u ≠ [] →
      (scrape_all_data site fuel).fetched_authors.count u = 1) ∧
    (∀ (cur : Option Str) (st : Hits) (seen : List Str) (accQ : List QuoteRec)
        (accA : List AuthorResult) (visited : List Str), ∃ d : List Str,
      (scrapeLoop site fuel cur st seen accQ accA visited).fetched_authors
        = seen ++ d) := by
  obtain ⟨d, h1, h2, _, h4, h5⟩ := scrapeLoop_inv site fuel (some BASE_URL) [] [] [] [] []
  rw [scrape_all_data]
  simp only [List.nil_append] at h1
  refine ⟨?_, ?_, ?_, ?_⟩
  · rw [h1]
    exact h2
  · rw [h1, h4]
    simp
  · intro q hq u hqu hune
    have hmem := h5 (by simp) q hq u hqu hune
    simp only [List.nil_append] at hmem
    rw [h1]
    exact count_eq_one_of_nodup_mem d u h2 hmem
  · intro cur st seen accQ accA visited
    obtain ⟨d2, hd2, _⟩ := scrapeLoop_inv site fuel cur st seen accQ accA visited
    exact ⟨d2, hd2⟩

/-- Closed witness for C1 on the mock site: the author URL referenced by
ten of the twelve quotes appears in the final seen-authors set exactly
once. -/
theorem seen_authors_exactly_once_witness :
    (scrape_all_data mockSite 5).fetched_authors.count
        (BASE_URL ++ chars "/author/Alpha") = 1 :=
  (seen_authors_exactly_once mockSite 5).2.2.1
    (fetchQuoteElem (mkQuoteElem "Q1" "Alpha" "/author/Alpha")) (by decide)
    (BASE_URL ++ chars "/author/Alpha") (by decide) (by decide)

end QuoteVault
